import Mathlib

/-!
Shallow embedding of the modpack build scripts (`scripts/build_extensions.py`,
`scripts/utils.py`): the descriptor merge engine, URL platform detection,
work-item planning, the retrying executor, the failure-report aggregator,
the `pack.toml` version rewrite, and the sync-flow resource installer.
Python dicts are embedded as insertion-ordered association lists; the external
`packwiz` subprocess is embedded as an oracle giving each invocation's outcome.
-/

namespace Taichi

/-! ## Association lists standing for Python dicts -/

/-- Lookup of the binding of a key, mirroring Python dict lookup.  Every dict
built by this development has pairwise-distinct keys, so the first binding is
the only one. -/
def lookupA {κ β : Type} [DecidableEq κ] : List (κ × β) → κ → Option β
  | [], _ => none
  | p :: rest, k => if p.1 = k then some p.2 else lookupA rest k

/-- Python `k in d`. -/
def containsA {κ β : Type} [DecidableEq κ] (d : List (κ × β)) (k : κ) : Bool :=
  (lookupA d k).isSome

/-- Python `d[k] = v`: replace the binding in place when the key is present,
otherwise append a new binding (dicts preserve insertion order). -/
def dictSet {κ β : Type} [DecidableEq κ] (d : List (κ × β)) (k : κ) (v : β) :
    List (κ × β) :=
  if containsA d k then d.map (fun p => if p.1 = k then (k, v) else p)
  else d ++ [(k, v)]

/-- Python `if k not in d: d[k] = dflt`. -/
def dictSetDefault {κ β : Type} [DecidableEq κ] (d : List (κ × β)) (k : κ) (dflt : β) :
    List (κ × β) :=
  if containsA d k then d else d ++ [(k, dflt)]

/-- In-place mutation of the value object bound at `k` (Python code mutating
`d[k]`); bindings for other keys are untouched. -/
def dictMutate {κ β : Type} [DecidableEq κ] (d : List (κ × β)) (k : κ) (f : β → β) :
    List (κ × β) :=
  d.map (fun p => if p.1 = k then (k, f p.2) else p)

/-- The key sequence of a dict, in insertion order (Python `list(d.keys())`). -/
def keysOf {κ β : Type} (d : List (κ × β)) : List κ :=
  d.map (fun p => p.1)

/-! ## Data model of the merge engine (`build_extensions.py`) -/

/-- One `[[mod]]` table of an extensions descriptor: an optional `name` key
(`mod.get("name", "Unnamed")` supplies the default) and the loader tables,
each mapping a game-version string to a resource URL. -/
structure ModEntry where
  name : Option String
  loaders : List (String × List (String × String))
deriving DecidableEq, Repr

/-- `mod.get("name", "Unnamed")` of `merge_mods`. -/
def modEntryName (m : ModEntry) : String :=
  m.name.getD "Unnamed"

/-- One parsed extensions descriptor, keeping only the payload the merge
engine reads: the ordered `mods` list. -/
structure Extension where
  mods : List ModEntry
deriving DecidableEq, Repr

/-- The fixed loader list scanned by `merge_mods` and `add_mods_to_versions`. -/
def fixedLoaders : List String :=
  ["fabric", "forge", "neoforge"]

/-- The `(mod_name, loader, version)` key of `mods_dict`. -/
abbrev ModKey := String × String × String

/-- The value stored in `mods_dict`: `{"name": .., "loader": .., "version": ..,
"url": ..}`. -/
structure ModInfo where
  name : String
  loader : String
  version : String
  url : String
deriving DecidableEq, Repr

/-- One write to `mods_dict` (lines 142-152 of `build_extensions.py`): when the
key is already present only the `url` field of the stored entry is updated,
otherwise a fresh entry is appended. -/
def modsDictWrite (d : List (ModKey × ModInfo)) (k : ModKey) (url : String) :
    List (ModKey × ModInfo) :=
  if containsA d k then dictMutate d k (fun info => { info with url := url })
  else d ++ [(k, { name := k.1, loader := k.2.1, version := k.2.2, url := url })]

/-- The `(key, url)` writes contributed by one mod entry, in the order the
nested loops of `merge_mods` perform them: the fixed loader list outermost,
then the loader table in insertion order; absent loader keys contribute
nothing, and loader keys outside the fixed list are never read. -/
def modWrites (mod : ModEntry) : List (ModKey × String) :=
  fixedLoaders.flatMap (fun loader =>
    match lookupA mod.loaders loader with
    | none => []
    | some cfg => cfg.map (fun vu => ((modEntryName mod, loader, vu.1), vu.2)))

/-- The writes contributed by one descriptor, mods in order. -/
def extWrites (ext : Extension) : List (ModKey × String) :=
  ext.mods.flatMap modWrites

/-- All writes of a run, descriptors in command-line order. -/
def allWrites (exts : List Extension) : List (ModKey × String) :=
  exts.flatMap extWrites

/-- The `mods_dict` built by the first phase of `merge_mods`: the nested
descriptor/mod/loader/version loops perform the writes of `allWrites` in
exactly that order. -/
def buildModsDict (exts : List Extension) : List (ModKey × ModInfo) :=
  (allWrites exts).foldl (fun d w => modsDictWrite d w.1 w.2) []

/-- The per-loader version→URL table of one merged mod. -/
abbrev LoaderTable := List (String × List (String × String))

/-- One step of the regrouping phase of `merge_mods` (lines 158-165):
`result_mods` get-or-create at the mod name, get-or-create the loader table,
then assign the URL at the version key. -/
def regroupStep (acc : List (String × LoaderTable)) (e : ModKey × ModInfo) :
    List (String × LoaderTable) :=
  dictMutate (dictSetDefault acc e.1.1 []) e.1.1 (fun tbl =>
    dictMutate (dictSetDefault tbl e.1.2.1 []) e.1.2.1 (fun vers =>
      dictSet vers e.1.2.2 e.2.url))

/-- One element of the list returned by `merge_mods`: the dict
`{"name": mod_name, loader: {version: url, ...}, ...}`. -/
structure MergedMod where
  name : String
  loaders : LoaderTable
deriving DecidableEq, Repr

/-- `merge_mods`: build `mods_dict` with last-writer-wins URL updates, regroup
it by mod name, and return the values list. -/
def mergeMods (exts : List Extension) : List MergedMod :=
  (((buildModsDict exts).foldl regroupStep []).map
    (fun p => { name := p.1, loaders := p.2 }))

/-- Observation of a merged mod set: the URL retained for a
`(modName, loader, version)` triple, if any (the first entry carrying the mod
name is the only one, mirroring dict lookup on `result_mods`). -/
def lookupMerged (ms : List MergedMod) (n l v : String) : Option String :=
  match ms with
  | [] => none
  | m :: rest =>
    if m.name = n then (lookupA m.loaders l).bind (fun cfg => lookupA cfg v)
    else lookupMerged rest n l v

/-- The same observation on the name-keyed regrouping dict, before
`list(result_mods.values())` is taken. -/
def lookupTbl (acc : List (String × LoaderTable)) (n l v : String) : Option String :=
  (lookupA acc n).bind (fun tbl => (lookupA tbl l).bind (fun vers => lookupA vers v))

/-- Follows the spec's words (section 3, MergedModSet invariant): the URL kept
for a triple is the one from the last write, in input order, that defines that
triple; scanning the writes in input order and keeping the latest match. -/
def specLastWriterUrl (writes : List (ModKey × String)) (k : ModKey) : Option String :=
  writes.foldl (fun acc w => if w.1 = k then some w.2 else acc) none

/-! ## Platform detection -/

/-- Substring containment over character lists: does the second list occur
contiguously inside the first? (Python `needle in hay` on strings.) -/
def listStartsWith : List Char → List Char → Bool
  | _, [] => true
  | [], _ :: _ => false
  | a :: l, b :: m => a = b && listStartsWith l m

/-- Python `needle in hay` for strings, on the character lists. -/
def listHasSub : List Char → List Char → Bool
  | [], m => m.isEmpty
  | a :: l, m => listStartsWith (a :: l) m || listHasSub l m

/-- Python `needle in hay` on strings. -/
def strHasSub (hay needle : String) : Bool :=
  listHasSub hay.data needle.data

/-- `detect_url_platform`: substring tests against the lower-cased URL,
Modrinth first, CurseForge second, defaulting to Modrinth. -/
def detectUrlPlatform (url : String) : String :=
  if strHasSub url.toLower "modrinth.com" then "modrinth"
  else if strHasSub url.toLower "curseforge.com" then "curseforge"
  else "modrinth"

/-- Follows the spec's words (section 4.3): a fixed priority-ordered list of
platform signatures, matched as substrings against the URL; an unmatched URL
is assigned the first/primary platform. -/
def platformSignatures : List (String × String) :=
  [("modrinth.com", "modrinth"), ("curseforge.com", "curseforge")]

/-- Follows the spec's words (section 4.3): the platform of the first matching
signature, defaulting to the first/primary platform. -/
def specDetectPlatform (url : String) : String :=
  match platformSignatures.find? (fun p => strHasSub url.toLower p.1) with
  | some p => p.2
  | none => "modrinth"

/-! ## Work-item planning (`get_version_path`, task collection of
`add_mods_to_versions`) -/

/-- One install work item of `add_mods_to_versions`. -/
structure Task where
  name : String
  loader : String
  version : String
  url : String
  platform : String
  versionPath : String
deriving DecidableEq, Repr

/-- `get_version_path`: the joined `<base>/<loader>/<version>` path when the
directory exists in the filesystem snapshot `isdir`, else `None`. -/
def getVersionPath (isdir : String → Bool) (base loader version : String) :
    Option String :=
  if isdir (base ++ "/" ++ loader ++ "/" ++ version) then
    some (base ++ "/" ++ loader ++ "/" ++ version)
  else none

/-- The task-collection loop of `add_mods_to_versions` (lines 409-427): for
every merged mod, fixed loader, and version→URL binding, emit a task exactly
when `get_version_path` resolves, tagging it with the detected platform. -/
def planTasks (isdir : String → Bool) (base : String) (mods : List MergedMod) :
    List Task :=
  mods.flatMap (fun mod =>
    fixedLoaders.flatMap (fun loader =>
      ((lookupA mod.loaders loader).getD []).filterMap (fun vu =>
        (getVersionPath isdir base loader vu.1).map (fun path =>
          { name := mod.name, loader := loader, version := vu.1, url := vu.2,
            platform := detectUrlPlatform vu.2, versionPath := path }))))

/-! ## The retrying executor (`add_mod_to_version`) -/

/-- The outcome the external `packwiz` invocation can have: an exit code, a
raised process error, or a timeout (`subprocess.TimeoutExpired`). -/
inductive AttemptResult where
  | exit (code : Int)
  | exc
  | timeout
deriving DecidableEq, Repr

/-- `result.returncode == 0`: only a clean exit is a successful attempt; a
non-zero exit code, a raised exception, and a timeout are all failures. -/
def attemptOk : AttemptResult → Bool
  | .exit c => decide (c = 0)
  | .exc => false
  | .timeout => false

/-- The hard-coded backoff table `retry_delays = [1, 3, 9]` (seconds). -/
def retryDelays : List Nat :=
  [1, 3, 9]

/-- The `for attempt in range(max_retries)` loop of `add_mod_to_version`.
`oracle i` is the outcome of the `i`-th external invocation; `remaining` is
`maxRetries - attempt`; the sleep log records every `time.sleep(delay)`
performed.  Returns `(success, attempts, sleeps)`. -/
def runAttemptsAux (oracle : Nat → AttemptResult) (maxRetries : Nat) :
    Nat → Nat → List Nat → Bool × Nat × List Nat
  | 0, _, sleeps => (false, maxRetries, sleeps)
  | remaining + 1, attempt, sleeps =>
    if attemptOk (oracle attempt) then (true, attempt + 1, sleeps)
    else
      runAttemptsAux oracle maxRetries remaining (attempt + 1)
        (if attempt < maxRetries - 1 then sleeps ++ [retryDelays.getD attempt 0]
         else sleeps)

/-- `add_mod_to_version`: immediate `(False, 0)` without any invocation when
the target directory is missing, otherwise the retry loop; the sleep log is
returned alongside the `(success, attempts)` pair the Python function
returns. -/
def addModToVersion (dirExists : Bool) (oracle : Nat → AttemptResult)
    (maxRetries : Nat) : Bool × Nat × List Nat :=
  if ¬ dirExists then (false, 0, [])
  else runAttemptsAux oracle maxRetries maxRetries 0 []

/-! ## Failure-report aggregation (`add_mods_to_versions`, lines 435-469) -/

/-- The grouping key of a failing task. -/
def groupKey (t : Task) : String :=
  t.loader ++ "/" ++ t.version

/-- `failed[key].append(name)` on a `defaultdict(list)`: get-or-create the
empty list at the key, then append. -/
def reportUpsert (rep : List (String × List String)) (key name : String) :
    List (String × List String) :=
  dictMutate (dictSetDefault rep key []) key (fun names => names ++ [name])

/-- The result-collection loop over completed futures: `completed` lists the
finished tasks with their success flags, in completion order; each failing
task's name is appended under its grouping key. -/
def buildReportAux (rep : List (String × List String))
    (completed : List (Task × Bool)) : List (String × List String) :=
  completed.foldl (fun rep p => if p.2 then rep else reportUpsert rep (groupKey p.1) p.1.name)
    rep

/-- The failure report of one executor run. -/
def buildReport (completed : List (Task × Bool)) : List (String × List String) :=
  buildReportAux [] completed

/-- The failing outcomes of a run, in completion order. -/
def failedOutcomes (completed : List (Task × Bool)) : List (Task × Bool) :=
  completed.filter (fun p => !p.2)

/-- Follows the spec's words (section 4.5): the names recorded under one
grouping key are the failing tasks with that key, in insertion order. -/
def specGroupNames (completed : List (Task × Bool)) (k : String) : List String :=
  ((failedOutcomes completed).filter (fun p => decide (groupKey p.1 = k))).map
    (fun p => p.1.name)

/-- Follows the spec's words (section 4.5): first-seen order of a key
sequence. -/
def specFirstSeen (ks : List String) : List String :=
  ks.foldl (fun acc k => if k ∈ acc then acc else acc ++ [k]) []

/-! ## The `pack.toml` version rewrite (`update_pack_versions`) -/

/-- The whitespace set of Python `str.strip()`. -/
def isPySpace (c : Char) : Bool :=
  c = ' ' || c = '\t' || c = '\n' || c = '\r' || c = '\x0b' || c = '\x0c'

/-- Python `s.strip()` on the character list: whitespace removed from both
ends. -/
def stripChars (l : List Char) : List Char :=
  ((l.dropWhile isPySpace).reverse.dropWhile isPySpace).reverse

/-- Python `s.endswith(t)` on character lists. -/
def listEndsWith (l m : List Char) : Bool :=
  listStartsWith l.reverse m.reverse

/-- Python `line.split("=", 1)` restricted to its second component: the
characters before and after the first `=`, or `none` when the line has no `=`
(the two-part split exists exactly when the character occurs). -/
def breakAtEq : List Char → Option (List Char × List Char)
  | [] => none
  | c :: l =>
    if c = '=' then some ([], l)
    else (breakAtEq l).map (fun p => (c :: p.1, p.2))

/-- The per-line body of the rewrite loop (lines 296-311): when the stripped
line starts with `version =`, the split succeeds, and the stripped value is
quoted, return the replacement line `version = "<current><suffix>"\n` built
from `value[1:-1]`; otherwise `none` and the loop moves on. -/
def tryRewriteLine (suffix line : String) : Option String :=
  if listStartsWith (stripChars line.data) "version =".data then
    match breakAtEq line.data with
    | none => none
    | some parts =>
      let value := stripChars parts.2
      if listStartsWith value ['\"'] && listEndsWith value ['\"'] then
        some ("version = \"" ++ (String.mk ((value.drop 1).dropLast) ++ suffix) ++ "\"\n")
      else none
  else none

/-- The `for i, line in enumerate(lines)` loop with its `break`: rewrite the
first line the body accepts, keep every other line verbatim, and report
whether a modification happened. -/
def updateLines (suffix : String) : List String → List String × Bool
  | [] => ([], false)
  | line :: rest =>
    match tryRewriteLine suffix line with
    | some newLine => (newLine :: rest, true)
    | none =>
      let r := updateLines suffix rest
      (line :: r.1, r.2)

/-- The per-file transformation of `update_pack_versions`: the suffix is
`"-" + extension_suffix`, and the file is written back only when modified. -/
def updatePackToml (extensionSuffix : String) (lines : List String) :
    List String × Bool :=
  updateLines ("-" ++ extensionSuffix) lines

/-- Follows the spec's words (section 6): the `<string>` of a
`version = "<string>"` manifest line, parsed the way the claim describes such a
line — optional surrounding whitespace, the `version =` key, and a quoted
value after the first `=`. -/
def packVersionString (line : String) : Option String :=
  if listStartsWith (stripChars line.data) "version =".data then
    match breakAtEq line.data with
    | none => none
    | some parts =>
      let value := stripChars parts.2
      if listStartsWith value ['\"'] && listEndsWith value ['\"'] then
        some (String.mk ((value.drop 1).dropLast))
      else none
  else none

/-- The index of the first line carrying a `version = "<string>"` field, the
line the rewrite loop stops at. -/
def firstVersionIdx : List String → Option Nat
  | [] => none
  | line :: rest =>
    if (packVersionString line).isSome then some 0
    else (firstVersionIdx rest).map (fun j => j + 1)

/-! ## The sync-flow installer (`utils.install_resources`) -/

/-- `install_single_mod` of `utils.install_resources`: a resource whose
filename does not end in `.pw.toml` is returned as failed before any external
invocation; otherwise the external tool runs once and a non-zero exit,
exception, or timeout marks the resource failed.  The second component records
whether the external tool was invoked. -/
def installSingleMod (oracle : String → AttemptResult) (mod : String) :
    Option String × Bool :=
  if ¬ mod.endsWith ".pw.toml" then (some mod, false)
  else
    match oracle mod with
    | .exit 0 => (none, true)
    | _ => (some mod, true)

/-- `install_resources`: empty result when the target directory is missing,
dedupe against the resources already present by exact filename, then collect
the resources whose install failed (completion order abstracted to list
order). -/
def installResources (dirExists : Bool) (already : List String)
    (resourceList : List String) (oracle : String → AttemptResult) : List String :=
  if ¬ dirExists then []
  else
    let remaining := resourceList.filter (fun m => ¬ already.contains m)
    if remaining.isEmpty then []
    else remaining.filter (fun m => (installSingleMod oracle m).1.isSome)

/-! ## Lemmas about the dict embedding -/

theorem keysOf_nil {κ β : Type} : keysOf ([] : List (κ × β)) = [] := rfl

theorem keysOf_cons {κ β : Type} (p : κ × β) (d : List (κ × β)) :
    keysOf (p :: d) = p.1 :: keysOf d := rfl

theorem keysOf_append {κ β : Type} (d e : List (κ × β)) :
    keysOf (d ++ e) = keysOf d ++ keysOf e := by
  simp [keysOf]

theorem lookupA_eq_none_iff {κ β : Type} [DecidableEq κ] (d : List (κ × β)) (k : κ) :
    lookupA d k = none ↔ k ∉ keysOf d := by
  induction d with
  | nil => simp [lookupA, keysOf]
  | cons p rest ih =>
    simp only [lookupA, keysOf_cons, List.mem_cons]
    by_cases h : p.1 = k
    · simp [h]
    · have h2 : ¬ k = p.1 := fun hk => h hk.symm
      simp [h, h2, ih]

theorem containsA_iff_mem {κ β : Type} [DecidableEq κ] (d : List (κ × β)) (k : κ) :
    containsA d k = true ↔ k ∈ keysOf d := by
  rw [containsA, Option.isSome_iff_ne_none, ne_eq, lookupA_eq_none_iff, not_not]

theorem lookupA_append {κ β : Type} [DecidableEq κ] (d e : List (κ × β)) (k : κ) :
    lookupA (d ++ e) k =
      match lookupA d k with
      | some v => some v
      | none => lookupA e k := by
  induction d with
  | nil => simp [lookupA]
  | cons p rest ih => by_cases h : p.1 = k <;> simp [lookupA, h, ih]

theorem lookupA_dictMutate {κ β : Type} [DecidableEq κ] (d : List (κ × β)) (k k' : κ)
    (f : β → β) :
    lookupA (dictMutate d k f) k' =
      if k' = k then (lookupA d k).map f else lookupA d k' := by
  induction d with
  | nil =>
    simp only [dictMutate, List.map_nil, lookupA]
    split <;> simp
  | cons p rest ih =>
    by_cases hpk : p.1 = k <;> by_cases hk : k' = k <;>
      by_cases hpk' : p.1 = k' <;>
      simp_all [dictMutate, lookupA]

theorem lookupA_dictSetDefault {κ β : Type} [DecidableEq κ] (d : List (κ × β))
    (k : κ) (dflt : β) (k' : κ) :
    lookupA (dictSetDefault d k dflt) k' =
      if k' = k then some ((lookupA d k).getD dflt) else lookupA d k' := by
  unfold dictSetDefault containsA
  by_cases h : (lookupA d k).isSome
  · obtain ⟨v, hv⟩ := Option.isSome_iff_exists.mp h
    by_cases hk : k' = k <;> simp [h, hk, hv]
  · have hnone : lookupA d k = none := Option.not_isSome_iff_eq_none.mp h
    by_cases hk : k' = k
    · simp [h, hk, hnone, lookupA_append, lookupA]
    · have hk2 : ¬ k = k' := fun h2 => hk h2.symm
      cases hl : lookupA d k' <;>
        simp [h, hk, hk2, hnone, hl, lookupA_append, lookupA]

theorem lookupA_dictSet {κ β : Type} [DecidableEq κ] (d : List (κ × β)) (k : κ)
    (v : β) (k' : κ) :
    lookupA (dictSet d k v) k' = if k' = k then some v else lookupA d k' := by
  have hmut : dictSet d k v =
      if containsA d k then dictMutate d k (fun _ => v) else d ++ [(k, v)] := rfl
  rw [hmut]
  by_cases h : containsA d k = true
  · have hs : (lookupA d k).isSome := h
    obtain ⟨w, hw⟩ := Option.isSome_iff_exists.mp hs
    by_cases hk : k' = k <;> simp [h, hk, lookupA_dictMutate, hw]
  · have hnone : lookupA d k = none := by
      rw [lookupA_eq_none_iff]
      intro hmem
      exact h ((containsA_iff_mem d k).mpr hmem)
    by_cases hk : k' = k
    · simp [h, hk, hnone, lookupA_append, lookupA]
    · have hk2 : ¬ k = k' := fun h2 => hk h2.symm
      cases hl : lookupA d k' <;>
        simp [h, hk, hk2, hnone, hl, lookupA_append, lookupA]

theorem keysOf_dictMutate {κ β : Type} [DecidableEq κ] (d : List (κ × β)) (k : κ)
    (f : β → β) :
    keysOf (dictMutate d k f) = keysOf d := by
  unfold dictMutate keysOf
  rw [List.map_map]
  apply List.map_congr_left
  intro p _
  by_cases h : p.1 = k <;> simp [h]

theorem keysOf_dictSetDefault {κ β : Type} [DecidableEq κ] (d : List (κ × β)) (k : κ)
    (dflt : β) :
    keysOf (dictSetDefault d k dflt) =
      if k ∈ keysOf d then keysOf d else keysOf d ++ [k] := by
  unfold dictSetDefault
  by_cases h : containsA d k = true
  · simp [h, (containsA_iff_mem d k).mp h]
  · have : k ∉ keysOf d := fun hm => h ((containsA_iff_mem d k).mpr hm)
    simp [h, this, keysOf_append, keysOf_cons, keysOf_nil]

/-! ## Lemmas about the merge engine -/

theorem lookupA_modsDictWrite_self (d : List (ModKey × ModInfo)) (k : ModKey)
    (url : String) :
    (lookupA (modsDictWrite d k url) k).map ModInfo.url = some url := by
  unfold modsDictWrite
  by_cases h : containsA d k = true
  · obtain ⟨w, hw⟩ := Option.isSome_iff_exists.mp (h : (lookupA d k).isSome)
    simp [h, lookupA_dictMutate, hw]
  · have hnone : lookupA d k = none := by
      rw [lookupA_eq_none_iff]
      exact fun hm => h ((containsA_iff_mem d k).mpr hm)
    simp [h, lookupA_append, lookupA, hnone]

theorem lookupA_modsDictWrite_ne (d : List (ModKey × ModInfo)) (k : ModKey)
    (url : String) (k' : ModKey) (hk : k' ≠ k) :
    lookupA (modsDictWrite d k url) k' = lookupA d k' := by
  unfold modsDictWrite
  by_cases h : containsA d k = true
  · simp [h, lookupA_dictMutate, hk]
  · have hk2 : ¬ k = k' := fun h2 => hk h2.symm
    cases hl : lookupA d k' <;> simp [h, hk2, hl, lookupA_append, lookupA]

theorem keysOf_modsDictWrite (d : List (ModKey × ModInfo)) (k : ModKey)
    (url : String) :
    keysOf (modsDictWrite d k url) =
      if k ∈ keysOf d then keysOf d else keysOf d ++ [k] := by
  unfold modsDictWrite
  by_cases h : containsA d k = true
  · simp [h, (containsA_iff_mem d k).mp h, keysOf_dictMutate]
  · have hm : k ∉ keysOf d := fun hm => h ((containsA_iff_mem d k).mpr hm)
    simp [h, hm, keysOf_append, keysOf_cons, keysOf_nil]

theorem nodup_keysOf_modsDictWrite (d : List (ModKey × ModInfo)) (k : ModKey)
    (url : String) (h : (keysOf d).Nodup) :
    (keysOf (modsDictWrite d k url)).Nodup := by
  rw [keysOf_modsDictWrite]
  by_cases hm : k ∈ keysOf d
  · simpa [hm] using h
  · simp [hm, List.nodup_append, h]

theorem foldl_lastWriter_init (writes : List (ModKey × String)) (k : ModKey)
    (init : Option String) :
    writes.foldl (fun acc w => if w.1 = k then some w.2 else acc) init =
      match specLastWriterUrl writes k with
      | some u => some u
      | none => init := by
  induction writes generalizing init with
  | nil => rfl
  | cons w rest ih =>
    rw [List.foldl_cons, ih]
    conv_rhs => rw [specLastWriterUrl, List.foldl_cons]
    rw [show rest.foldl (fun acc w => if w.1 = k then some w.2 else acc)
          (if w.1 = k then some w.2 else none) =
        match specLastWriterUrl rest k with
        | some u => some u
        | none => (if w.1 = k then some w.2 else none) from ih _]
    cases specLastWriterUrl rest k with
    | some u => rfl
    | none => by_cases hw : w.1 = k <;> simp [hw]

theorem specLastWriterUrl_cons (w : ModKey × String) (rest : List (ModKey × String))
    (k : ModKey) :
    specLastWriterUrl (w :: rest) k =
      match specLastWriterUrl rest k with
      | some u => some u
      | none => if w.1 = k then some w.2 else none := by
  rw [specLastWriterUrl, List.foldl_cons, foldl_lastWriter_init]

theorem foldWrites_lookup (writes : List (ModKey × String))
    (d : List (ModKey × ModInfo)) (k : ModKey) :
    (lookupA (writes.foldl (fun d w => modsDictWrite d w.1 w.2) d) k).map ModInfo.url =
      match specLastWriterUrl writes k with
      | some u => some u
      | none => (lookupA d k).map ModInfo.url := by
  induction writes generalizing d with
  | nil => rfl
  | cons w rest ih =>
    rw [List.foldl_cons, ih, specLastWriterUrl_cons]
    cases specLastWriterUrl rest k with
    | some u => rfl
    | none =>
      by_cases hw : w.1 = k
      · subst hw
        simp [lookupA_modsDictWrite_self]
      · have hk : k ≠ w.1 := fun h2 => hw h2.symm
        simp [hw, lookupA_modsDictWrite_ne _ _ _ _ hk]

theorem nodup_keysOf_foldWrites (writes : List (ModKey × String))
    (d : List (ModKey × ModInfo)) (h : (keysOf d).Nodup) :
    (keysOf (writes.foldl (fun d w => modsDictWrite d w.1 w.2) d)).Nodup := by
  induction writes generalizing d with
  | nil => exact h
  | cons w rest ih =>
    rw [List.foldl_cons]
    exact ih _ (nodup_keysOf_modsDictWrite _ _ _ h)

theorem nodup_keysOf_buildModsDict (exts : List Extension) :
    (keysOf (buildModsDict exts)).Nodup := by
  exact nodup_keysOf_foldWrites _ [] List.nodup_nil

theorem regroupStep_lookup_self (acc : List (String × LoaderTable))
    (e : ModKey × ModInfo) :
    lookupTbl (regroupStep acc e) e.1.1 e.1.2.1 e.1.2.2 = some e.2.url := by
  unfold lookupTbl regroupStep
  simp [lookupA_dictMutate, lookupA_dictSetDefault, lookupA_dictSet]

theorem regroupStep_lookup_ne (acc : List (String × LoaderTable))
    (e : ModKey × ModInfo) (n l v : String) (h : (n, l, v) ≠ e.1) :
    lookupTbl (regroupStep acc e) n l v = lookupTbl acc n l v := by
  unfold lookupTbl regroupStep
  by_cases hn : n = e.1.1
  · subst hn
    by_cases hl : l = e.1.2.1
    · subst hl
      have hv : v ≠ e.1.2.2 := fun hv => h (by rw [hv])
      have hv2 : ¬ e.1.2.2 = v := fun h2 => hv h2.symm
      cases hacc : lookupA acc e.1.1 with
      | none =>
        simp [lookupA_dictMutate, lookupA_dictSetDefault, lookupA_dictSet,
          hacc, hv, hv2, lookupA]
      | some tbl =>
        cases htbl : lookupA tbl e.1.2.1 with
        | none =>
          simp [lookupA_dictMutate, lookupA_dictSetDefault, lookupA_dictSet,
            hacc, htbl, hv, hv2, lookupA]
        | some vers =>
          simp [lookupA_dictMutate, lookupA_dictSetDefault, lookupA_dictSet,
            hacc, htbl, hv, hv2, lookupA]
    · have hl2 : ¬ e.1.2.1 = l := fun h2 => hl h2.symm
      cases hacc : lookupA acc e.1.1 with
      | none =>
        simp [lookupA_dictMutate, lookupA_dictSetDefault, hacc, hl, hl2, lookupA]
      | some tbl =>
        simp [lookupA_dictMutate, lookupA_dictSetDefault, hacc, hl, hl2, lookupA]
  · simp only [lookupA_dictMutate, lookupA_dictSetDefault, if_neg hn]

theorem keysOf_regroupStep (acc : List (String × LoaderTable))
    (e : ModKey × ModInfo) :
    keysOf (regroupStep acc e) =
      if e.1.1 ∈ keysOf acc then keysOf acc else keysOf acc ++ [e.1.1] := by
  unfold regroupStep
  rw [keysOf_dictMutate, keysOf_dictSetDefault]

theorem nodup_keysOf_foldRegroup (entries : List (ModKey × ModInfo))
    (acc : List (String × LoaderTable)) (h : (keysOf acc).Nodup) :
    (keysOf (entries.foldl regroupStep acc)).Nodup := by
  induction entries generalizing acc with
  | nil => exact h
  | cons e rest ih =>
    rw [List.foldl_cons]
    apply ih
    rw [keysOf_regroupStep]
    by_cases hm : e.1.1 ∈ keysOf acc
    · simpa [hm] using h
    · simp [hm, List.nodup_append, h]

theorem foldRegroup_lookup (entries : List (ModKey × ModInfo))
    (acc : List (String × LoaderTable)) (n l v : String)
    (hnd : (keysOf entries).Nodup) :
    lookupTbl (entries.foldl regroupStep acc) n l v =
      match (lookupA entries (n, l, v)).map ModInfo.url with
      | some u => some u
      | none => lookupTbl acc n l v := by
  induction entries generalizing acc with
  | nil => rfl
  | cons e rest ih =>
    rw [keysOf_cons, List.nodup_cons] at hnd
    rw [List.foldl_cons, ih _ hnd.2]
    by_cases he : e.1 = (n, l, v)
    · have hrest : lookupA rest (n, l, v) = none := by
        rw [lookupA_eq_none_iff, ← he]
        exact hnd.1
      have hself := regroupStep_lookup_self acc e
      rw [he] at hself
      simp only [he] at hself
      simp [lookupA, hrest, he, hself]
    · have hne : (n, l, v) ≠ e.1 := fun h2 => he h2.symm
      rw [regroupStep_lookup_ne acc e n l v hne]
      simp only [lookupA, if_neg he]

theorem lookupMerged_map (acc : List (String × LoaderTable)) (n l v : String) :
    lookupMerged (acc.map (fun p => { name := p.1, loaders := p.2 })) n l v =
      lookupTbl acc n l v := by
  induction acc with
  | nil => rfl
  | cons p rest ih =>
    by_cases h : p.1 = n <;>
      simp [lookupMerged, lookupTbl, lookupA, h, ih]

theorem mergeMods_lookup (exts : List Extension) (n l v : String) :
    lookupMerged (mergeMods exts) n l v = specLastWriterUrl (allWrites exts) (n, l, v) := by
  have hnd : (keysOf ((allWrites exts).foldl (fun d w => modsDictWrite d w.1 w.2) [])).Nodup :=
    nodup_keysOf_buildModsDict exts
  unfold mergeMods buildModsDict
  rw [lookupMerged_map, foldRegroup_lookup _ _ _ _ _ hnd, foldWrites_lookup]
  cases specLastWriterUrl (allWrites exts) (n, l, v) <;> simp [lookupTbl, lookupA]

/-! ## Claim C1: last-writer-wins merge semantics -/

/-- C1: for every input list of descriptors and every
`(modName, loader, version)` triple, the merged mod set retains exactly the
URL of the last write, in input order, that defines the triple (so a triple a
later descriptor never touches keeps its earlier URL, and distinct triples of
the same mod name are kept independently); each mod name occurs at most once
in the merged output. -/
theorem c1_merge_last_writer_wins :
    ∀ exts : List Extension,
      (∀ n l v : String,
        lookupMerged (mergeMods exts) n l v =
          specLastWriterUrl (allWrites exts) (n, l, v)) ∧
      ((mergeMods exts).map MergedMod.name).Nodup := by
  intro exts
  refine ⟨fun n l v => mergeMods_lookup exts n l v, ?_⟩
  have hkeys : (mergeMods exts).map MergedMod.name =
      keysOf ((buildModsDict exts).foldl regroupStep []) := by
    unfold mergeMods keysOf
    rw [List.map_map]
    rfl
  rw [hkeys]
  exact nodup_keysOf_foldRegroup _ _ List.nodup_nil

/-! ## Claim C6: the merge is deterministic and idempotent -/

/-- C6: `merge_mods` is a pure function of its input — the same descriptor
list always yields the same merged set (so running it twice yields identical
output), and the result is determined by the write sequence the descriptors
induce. -/
theorem c6_merge_deterministic :
    ∀ exts : List Extension,
      mergeMods exts = mergeMods exts ∧
      ∀ exts' : List Extension, allWrites exts' = allWrites exts →
        ∀ n l v : String,
          lookupMerged (mergeMods exts') n l v = lookupMerged (mergeMods exts) n l v := by
  intro exts
  refine ⟨rfl, fun exts' hw n l v => ?_⟩
  rw [mergeMods_lookup, mergeMods_lookup, hw]

/-- Witness for C6 at concrete descriptors: one descriptor holding two mods
induces the same writes as two descriptors holding one mod each. -/
theorem c6_merge_deterministic_witness :
    mergeMods [{ mods := [{ name := some "Sodium",
                            loaders := [("fabric", [("1.20.1", "urlA")])] },
                          { name := some "Iris",
                            loaders := [("forge", [("1.19.2", "urlB")])] }] }] =
      mergeMods [{ mods := [{ name := some "Sodium",
                              loaders := [("fabric", [("1.20.1", "urlA")])] },
                            { name := some "Iris",
                              loaders := [("forge", [("1.19.2", "urlB")])] }] }] ∧
    lookupMerged
      (mergeMods [{ mods := [{ name := some "Sodium",
                               loaders := [("fabric", [("1.20.1", "urlA")])] }] },
                  { mods := [{ name := some "Iris",
                               loaders := [("forge", [("1.19.2", "urlB")])] }] }])
      "Sodium" "fabric" "1.20.1" =
    lookupMerged
      (mergeMods [{ mods := [{ name := some "Sodium",
                               loaders := [("fabric", [("1.20.1", "urlA")])] },
                             { name := some "Iris",
                               loaders := [("forge", [("1.19.2", "urlB")])] }] }])
      "Sodium" "fabric" "1.20.1" :=
  ⟨(c6_merge_deterministic _).1,
   (c6_merge_deterministic _).2 _ (by decide) "Sodium" "fabric" "1.20.1"⟩

/-! ## Claims C2, C3, C10: the retrying executor -/

/-- C2: with an existing target directory the executor makes at most 3
attempts; the sleeps performed are exactly the prefix of the backoff table
`[1, 3, 9]` preceding each retry (never after the final attempt); an item
failing twice then succeeding ends `(success, attempts) = (true, 3)` having
slept `1` and `3`; an item failing all three attempts ends `(false, 3)` with
the same sleeps. -/
theorem c2_executor_retry_policy :
    ∀ oracle : Nat → AttemptResult,
      (∀ c : Int, ¬ c = 0 → attemptOk (AttemptResult.exit c) = false) ∧
      attemptOk AttemptResult.exc = false ∧
      attemptOk AttemptResult.timeout = false ∧
      (addModToVersion true oracle 3).2.1 ≤ 3 ∧
      (addModToVersion true oracle 3).2.2 =
        retryDelays.take ((addModToVersion true oracle 3).2.1 - 1) ∧
      (attemptOk (oracle 0) = false → attemptOk (oracle 1) = false →
        attemptOk (oracle 2) = true →
        addModToVersion true oracle 3 = (true, 3, [1, 3])) ∧
      ((∀ i, i < 3 → attemptOk (oracle i) = false) →
        addModToVersion true oracle 3 = (false, 3, [1, 3])) := by
  intro oracle
  refine ⟨fun c hc => by simp [attemptOk, hc], rfl, rfl, ?_⟩
  by_cases h0 : attemptOk (oracle 0) = true
  · have heq : addModToVersion true oracle 3 = (true, 1, []) := by
      simp [addModToVersion, runAttemptsAux, h0]
    refine ⟨by rw [heq]; decide, by rw [heq]; rfl, ?_, ?_⟩
    · intro hh0 _ _
      rw [h0] at hh0
      cases hh0
    · intro hall
      have := hall 0 (by decide)
      rw [h0] at this
      cases this
  · rw [Bool.not_eq_true] at h0
    by_cases h1 : attemptOk (oracle 1) = true
    · have heq : addModToVersion true oracle 3 = (true, 2, [1]) := by
        simp [addModToVersion, runAttemptsAux, h0, h1, retryDelays]
      refine ⟨by rw [heq]; decide, by rw [heq]; rfl, ?_, ?_⟩
      · intro _ hh1 _
        rw [h1] at hh1
        cases hh1
      · intro hall
        have := hall 1 (by decide)
        rw [h1] at this
        cases this
    · rw [Bool.not_eq_true] at h1
      by_cases h2 : attemptOk (oracle 2) = true
      · have heq : addModToVersion true oracle 3 = (true, 3, [1, 3]) := by
          simp [addModToVersion, runAttemptsAux, h0, h1, h2, retryDelays]
        refine ⟨by rw [heq], by rw [heq]; rfl, fun _ _ _ => heq, ?_⟩
        intro hall
        have := hall 2 (by decide)
        rw [h2] at this
        cases this
      · rw [Bool.not_eq_true] at h2
        have heq : addModToVersion true oracle 3 = (false, 3, [1, 3]) := by
          simp [addModToVersion, runAttemptsAux, h0, h1, h2, retryDelays]
        refine ⟨by rw [heq], by rw [heq]; rfl, ?_, fun _ => heq⟩
        intro _ _ hh2
        rw [h2] at hh2
        cases hh2

/-- Witness for C2: an oracle failing with exit code 1 twice and then exiting
cleanly yields success on the third attempt with sleeps 1 and 3. -/
theorem c2_executor_retry_policy_witness :
    addModToVersion true
        (fun i => if i < 2 then AttemptResult.exit 1 else AttemptResult.exit 0) 3 =
      (true, 3, [1, 3]) :=
  (c2_executor_retry_policy
      (fun i => if i < 2 then AttemptResult.exit 1 else AttemptResult.exit 0)).2.2.2.2.2.1
    (by decide) (by decide) (by decide)

/-- C3: when the target directory is missing, the executor records failure
with 0 attempts and performs no external invocation at all — its result does
not depend on the invocation oracle. -/
theorem c3_missing_dir_immediate_failure :
    ∀ (oracle oracle2 : Nat → AttemptResult) (maxRetries : Nat),
      addModToVersion false oracle maxRetries = (false, 0, []) ∧
      addModToVersion false oracle maxRetries =
        addModToVersion false oracle2 maxRetries := by
  intro o o2 m
  exact ⟨by simp [addModToVersion], by simp [addModToVersion]⟩

/-- C10: under the caller's `max_retries = 3`, the attempts count is 0 exactly
when the directory is missing; on success it is the 1-based index of the
succeeding attempt, between 1 and 3, with every earlier attempt failing; on
failure with an existing directory it is exactly 3. -/
theorem c10_attempts_invariant :
    ∀ (dirExists : Bool) (oracle : Nat → AttemptResult),
      ((addModToVersion dirExists oracle 3).2.1 = 0 ↔ dirExists = false) ∧
      ((addModToVersion dirExists oracle 3).1 = true →
        1 ≤ (addModToVersion dirExists oracle 3).2.1 ∧
        (addModToVersion dirExists oracle 3).2.1 ≤ 3 ∧
        attemptOk (oracle ((addModToVersion dirExists oracle 3).2.1 - 1)) = true ∧
        ∀ i, i < (addModToVersion dirExists oracle 3).2.1 - 1 →
          attemptOk (oracle i) = false) ∧
      ((addModToVersion dirExists oracle 3).1 = false → dirExists = true →
        (addModToVersion dirExists oracle 3).2.1 = 3) := by
  intro dirExists oracle
  cases dirExists with
  | false =>
    have heq : addModToVersion false oracle 3 = (false, 0, []) := by
      simp [addModToVersion]
    refine ⟨by rw [heq]; simp, ?_, ?_⟩
    · intro hs
      rw [heq] at hs
      cases hs
    · intro _ hd
      cases hd
  | true =>
    by_cases h0 : attemptOk (oracle 0) = true
    · have heq : addModToVersion true oracle 3 = (true, 1, []) := by
        simp [addModToVersion, runAttemptsAux, h0]
      refine ⟨by rw [heq]; simp, ?_, ?_⟩
      · intro _
        rw [heq]
        refine ⟨by decide, by decide, h0, ?_⟩
        intro i hi
        simp at hi
      · intro hs
        rw [heq] at hs
        cases hs
    · rw [Bool.not_eq_true] at h0
      by_cases h1 : attemptOk (oracle 1) = true
      · have heq : addModToVersion true oracle 3 = (true, 2, [1]) := by
          simp [addModToVersion, runAttemptsAux, h0, h1, retryDelays]
        refine ⟨by rw [heq]; simp, ?_, ?_⟩
        · intro _
          rw [heq]
          refine ⟨by decide, by decide, h1, ?_⟩
          intro i hi
          have hi1 : i < 1 := hi
          have hi0 : i = 0 := by omega
          rw [hi0]
          exact h0
        · intro hs
          rw [heq] at hs
          cases hs
      · rw [Bool.not_eq_true] at h1
        by_cases h2 : attemptOk (oracle 2) = true
        · have heq : addModToVersion true oracle 3 = (true, 3, [1, 3]) := by
            simp [addModToVersion, runAttemptsAux, h0, h1, h2, retryDelays]
          refine ⟨by rw [heq]; simp, ?_, ?_⟩
          · intro _
            rw [heq]
            refine ⟨by decide, by decide, h2, ?_⟩
            intro i hi
            have hi2 : i < 2 := hi
            have : i = 0 ∨ i = 1 := by omega
            cases this with
            | inl h => rw [h]; exact h0
            | inr h => rw [h]; exact h1
          · intro hs
            rw [heq] at hs
            cases hs
        · rw [Bool.not_eq_true] at h2
          have heq : addModToVersion true oracle 3 = (false, 3, [1, 3]) := by
            simp [addModToVersion, runAttemptsAux, h0, h1, h2, retryDelays]
          refine ⟨by rw [heq]; simp, ?_, fun _ _ => by rw [heq]⟩
          intro hs
          rw [heq] at hs
          cases hs

/-! ## Claim C7: URL platform detection -/

/-- C7: the detected platform agrees, for every URL, with matching the fixed
priority-ordered signature list (modrinth before curseforge) against the
lower-cased URL as a substring, defaulting unmatched URLs to the
first/primary platform. -/
theorem c7_platform_detection :
    ∀ url : String, detectUrlPlatform url = specDetectPlatform url := by
  intro url
  unfold detectUrlPlatform specDetectPlatform platformSignatures
  by_cases h1 : strHasSub url.toLower "modrinth.com" = true
  · simp [h1, List.find?]
  · rw [Bool.not_eq_true] at h1
    by_cases h2 : strHasSub url.toLower "curseforge.com" = true
    · simp [h1, h2, List.find?]
    · rw [Bool.not_eq_true] at h2
      simp [h1, h2, List.find?]

/-! ## Claim C9: the sync installer never invokes the tool for
non-`.pw.toml` resources -/

/-- C9: a resource that survives dedupe but does not end in `.pw.toml` lands
in the failed list with the external tool never invoked for it, and only
`.pw.toml` resources ever trigger an invocation. -/
theorem c9_sync_skips_non_pwtoml :
    ∀ (already resources : List String) (oracle : String → AttemptResult)
      (mod : String),
      mod ∈ resources → already.contains mod = false →
      mod.endsWith ".pw.toml" = false →
      (mod ∈ installResources true already resources oracle ∧
        (installSingleMod oracle mod).2 = false) ∧
      ∀ m : String, (installSingleMod oracle m).2 = true →
        m.endsWith ".pw.toml" = true := by
  intro already resources oracle mod hmem hnot hext
  have hsingle : installSingleMod oracle mod = (some mod, false) := by
    simp [installSingleMod, hext]
  have hrem : mod ∈ resources.filter (fun m => ¬ already.contains m) := by
    rw [List.mem_filter]
    exact ⟨hmem, by simpa using hnot⟩
  refine ⟨⟨?_, by rw [hsingle]⟩, ?_⟩
  · unfold installResources
    rw [if_neg (by simp)]
    have hne : (resources.filter (fun m => ¬ already.contains m)).isEmpty = false := by
      rcases h : (resources.filter (fun m => ¬ already.contains m)).isEmpty with _ | _
      · rfl
      · rw [List.isEmpty_iff] at h
        rw [h] at hrem
        cases hrem
    simp only [hne, Bool.false_eq_true, if_false]
    rw [List.mem_filter]
    exact ⟨hrem, by simp [hsingle]⟩
  · intro m hm
    by_cases he : m.endsWith ".pw.toml" = true
    · exact he
    · rw [Bool.not_eq_true] at he
      simp [installSingleMod, he] at hm

/-- Witness for C9: a `.jar` resource surviving dedupe is reported failed and
never passed to the external tool. -/
theorem c9_sync_skips_non_pwtoml_witness :
    ("a.jar" ∈ installResources true ["b.pw.toml"] ["a.jar", "b.pw.toml"]
        (fun _ => AttemptResult.exit 0) ∧
      (installSingleMod (fun _ => AttemptResult.exit 0) "a.jar").2 = false) ∧
    ∀ m : String,
      (installSingleMod (fun _ => AttemptResult.exit 0) m).2 = true →
      m.endsWith ".pw.toml" = true :=
  c9_sync_skips_non_pwtoml ["b.pw.toml"] ["a.jar", "b.pw.toml"]
    (fun _ => AttemptResult.exit 0) "a.jar" (by decide) (by decide) (by decide)

/-- Witness for C10: an oracle failing once and then exiting cleanly gives
success with 2 attempts, the second attempt succeeding, the first failing. -/
theorem c10_attempts_invariant_witness :
    1 ≤ (addModToVersion true
          (fun i => if i = 0 then AttemptResult.exc else AttemptResult.exit 0) 3).2.1 ∧
    (addModToVersion true
        (fun i => if i = 0 then AttemptResult.exc else AttemptResult.exit 0) 3).2.1 ≤ 3 ∧
    attemptOk ((fun i => if i = 0 then AttemptResult.exc else AttemptResult.exit 0)
        ((addModToVersion true
          (fun i => if i = 0 then AttemptResult.exc else AttemptResult.exit 0) 3).2.1 - 1)) =
      true ∧
    ∀ i, i < (addModToVersion true
          (fun i => if i = 0 then AttemptResult.exc else AttemptResult.exit 0) 3).2.1 - 1 →
      attemptOk ((fun i => if i = 0 then AttemptResult.exc else AttemptResult.exit 0) i) =
        false :=
  (c10_attempts_invariant true
      (fun i => if i = 0 then AttemptResult.exc else AttemptResult.exit 0)).2.1
    (by decide)

/-! ## Lemmas about the failure-report aggregator -/

theorem lookupA_reportUpsert (rep : List (String × List String)) (key name k : String) :
    lookupA (reportUpsert rep key name) k =
      if k = key then some (((lookupA rep key).getD []) ++ [name])
      else lookupA rep k := by
  unfold reportUpsert
  rw [lookupA_dictMutate]
  by_cases hk : k = key
  · simp [hk, lookupA_dictSetDefault]
  · simp [hk, lookupA_dictSetDefault]

theorem keysOf_reportUpsert (rep : List (String × List String)) (key name : String) :
    keysOf (reportUpsert rep key name) =
      if key ∈ keysOf rep then keysOf rep else keysOf rep ++ [key] := by
  unfold reportUpsert
  rw [keysOf_dictMutate, keysOf_dictSetDefault]

theorem specGroupNames_cons (p : Task × Bool) (rest : List (Task × Bool)) (k : String) :
    specGroupNames (p :: rest) k =
      if p.2 = false then
        (if groupKey p.1 = k then p.1.name :: specGroupNames rest k
         else specGroupNames rest k)
      else specGroupNames rest k := by
  unfold specGroupNames failedOutcomes
  cases hp : p.2 <;> by_cases hk : groupKey p.1 = k <;>
    simp [List.filter_cons, hp, hk]

theorem buildReportAux_lookup (completed : List (Task × Bool))
    (rep : List (String × List String)) (k : String) :
    lookupA (buildReportAux rep completed) k =
      match lookupA rep k with
      | some names => some (names ++ specGroupNames completed k)
      | none =>
        if specGroupNames completed k = [] then none
        else some (specGroupNames completed k) := by
  induction completed generalizing rep with
  | nil =>
    unfold buildReportAux
    rw [List.foldl_nil]
    cases h : lookupA rep k <;> simp [specGroupNames, failedOutcomes, h]
  | cons p rest ih =>
    unfold buildReportAux at ih ⊢
    rw [List.foldl_cons, specGroupNames_cons]
    cases hp : p.2 with
    | true =>
      simp only [hp, if_true]
      exact ih rep
    | false =>
      simp only [hp, Bool.false_eq_true, if_false, if_pos rfl]
      rw [ih (reportUpsert rep (groupKey p.1) p.1.name)]
      by_cases hk : groupKey p.1 = k
      · rw [if_pos hk]
        rw [lookupA_reportUpsert, if_pos hk.symm, hk]
        cases hrep : lookupA rep k <;> simp
      · rw [if_neg hk]
        have hk2 : ¬ k = groupKey p.1 := fun h2 => hk h2.symm
        rw [lookupA_reportUpsert, if_neg hk2]
        simp

theorem keysOf_buildReportAux (completed : List (Task × Bool))
    (rep : List (String × List String)) :
    keysOf (buildReportAux rep completed) =
      ((failedOutcomes completed).map (fun p => groupKey p.1)).foldl
        (fun acc k => if k ∈ acc then acc else acc ++ [k]) (keysOf rep) := by
  induction completed generalizing rep with
  | nil => rfl
  | cons p rest ih =>
    unfold buildReportAux at ih ⊢
    rw [List.foldl_cons]
    unfold failedOutcomes at ih ⊢
    rw [List.filter_cons]
    cases hp : p.2 with
    | true =>
      simp only [hp, if_true, Bool.not_true, Bool.false_eq_true, if_false]
      exact ih rep
    | false =>
      simp only [hp, Bool.false_eq_true, if_false, Bool.not_false, if_true,
        List.map_cons, List.foldl_cons]
      rw [ih (reportUpsert rep (groupKey p.1) p.1.name), keysOf_reportUpsert]

theorem buildReportAux_no_failures (completed : List (Task × Bool))
    (rep : List (String × List String)) (h : failedOutcomes completed = []) :
    buildReportAux rep completed = rep := by
  induction completed generalizing rep with
  | nil => rfl
  | cons p rest ih =>
    unfold failedOutcomes at h ih
    rw [List.filter_cons] at h
    cases hp : p.2 with
    | false =>
      rw [hp] at h
      simp at h
    | true =>
      rw [hp] at h
      simp only [Bool.not_true, Bool.false_eq_true, if_false] at h
      unfold buildReportAux at ih ⊢
      rw [List.foldl_cons]
      simp only [hp, if_true]
      exact ih rep h

/-! ## Claim C5: failure-report aggregation -/

/-- C5: the failure report groups every failing outcome under its
`<loader>/<version>` key, keys in first-failure order, names in insertion
order within each key; a run with zero failures yields the empty report. -/
theorem c5_failure_report :
    ∀ completed : List (Task × Bool),
      keysOf (buildReport completed) =
        specFirstSeen ((failedOutcomes completed).map (fun p => groupKey p.1)) ∧
      (∀ k : String,
        lookupA (buildReport completed) k =
          if specGroupNames completed k = [] then none
          else some (specGroupNames completed k)) ∧
      (failedOutcomes completed = [] → buildReport completed = []) := by
  intro completed
  refine ⟨?_, fun k => ?_, fun h => buildReportAux_no_failures completed [] h⟩
  · rw [buildReport, keysOf_buildReportAux]
    rfl
  · rw [buildReport, buildReportAux_lookup]
    rfl

/-- Witness for C5 at the empty run: an empty report with no keys. -/
theorem c5_failure_report_witness :
    keysOf (buildReport ([] : List (Task × Bool))) = specFirstSeen [] ∧
      lookupA (buildReport ([] : List (Task × Bool))) "fabric/1.20.1" = none ∧
      buildReport ([] : List (Task × Bool)) = [] := by
  refine ⟨(c5_failure_report []).1, ?_, (c5_failure_report []).2.2 rfl⟩
  have h := (c5_failure_report []).2.1 "fabric/1.20.1"
  rw [h]
  rfl

/-! ## Lemmas about the planner -/

theorem planTasks_mem_props (isdir : String → Bool) (base : String)
    (mods : List MergedMod) (t : Task) (ht : t ∈ planTasks isdir base mods) :
    isdir t.versionPath = true ∧ t.loader ∈ fixedLoaders ∧
      t.versionPath = base ++ "/" ++ t.loader ++ "/" ++ t.version := by
  unfold planTasks at ht
  simp only [List.mem_flatMap, List.mem_filterMap] at ht
  obtain ⟨mod, _, loader, hloader, vu, _, hmap⟩ := ht
  unfold getVersionPath at hmap
  by_cases hdir : isdir (base ++ "/" ++ loader ++ "/" ++ vu.1) = true
  · rw [if_pos hdir] at hmap
    rw [Option.map_some'] at hmap
    injection hmap with hmap
    rw [← hmap]
    exact ⟨hdir, hloader, rfl⟩
  · rw [if_neg hdir] at hmap
    cases hmap

theorem sep_cons_append_inj (sep : Char) :
    ∀ a b v₁ v₂ : List Char, sep ∉ a → sep ∉ b →
      a ++ sep :: v₁ = b ++ sep :: v₂ → a = b ∧ v₁ = v₂ := by
  intro a
  induction a with
  | nil =>
    intro b v1 v2 _ hb h
    cases b with
    | nil => simpa using h
    | cons d bs =>
      simp only [List.nil_append, List.cons_append, List.cons.injEq] at h
      exfalso
      apply hb
      rw [h.1]
      exact List.mem_cons_self d bs
  | cons c as ih =>
    intro b v1 v2 ha hb h
    cases b with
    | nil =>
      simp only [List.cons_append, List.nil_append, List.cons.injEq] at h
      exfalso
      apply ha
      rw [← h.1]
      exact List.mem_cons_self c as
    | cons d bs =>
      simp only [List.cons_append, List.cons.injEq] at h
      have hrec := ih bs v1 v2 (fun hm => ha (List.mem_cons_of_mem _ hm))
        (fun hm => hb (List.mem_cons_of_mem _ hm)) h.2
      exact ⟨by rw [h.1, hrec.1], hrec.2⟩

theorem groupKeyStr_inj (l₁ l₂ v₁ v₂ : String)
    (h₁ : l₁ ∈ fixedLoaders) (h₂ : l₂ ∈ fixedLoaders)
    (h : l₁ ++ "/" ++ v₁ = l₂ ++ "/" ++ v₂) : l₁ = l₂ ∧ v₁ = v₂ := by
  have hd : l₁.data ++ '/' :: v₁.data = l₂.data ++ '/' :: v₂.data := by
    have h2 := congrArg String.data h
    have hslash : ("/" : String).data = ['/'] := rfl
    simpa [String.data_append, hslash] using h2
  have hn1 : '/' ∉ l₁.data := by
    simp only [fixedLoaders, List.mem_cons, List.not_mem_nil, or_false] at h₁
    rcases h₁ with h₁ | h₁ | h₁ <;> rw [h₁] <;> decide
  have hn2 : '/' ∉ l₂.data := by
    simp only [fixedLoaders, List.mem_cons, List.not_mem_nil, or_false] at h₂
    rcases h₂ with h₂ | h₂ | h₂ <;> rw [h₂] <;> decide
  have hres := sep_cons_append_inj '/' l₁.data l₂.data v₁.data v₂.data hn1 hn2 hd
  exact ⟨String.ext hres.1, String.ext hres.2⟩

/-! ## Claim C4: the planner only targets existing directories and drops the
rest silently -/

/-- C4: every emitted work item targets a directory that exists in the
snapshot; an entry whose `(loader, version)` directory is missing yields no
task at all, and no run over the emitted tasks can put its
`<loader>/<version>` key into the failure report. -/
theorem c4_planner_targets_exist :
    ∀ (isdir : String → Bool) (base : String) (mods : List MergedMod),
      (∀ t ∈ planTasks isdir base mods, isdir t.versionPath = true) ∧
      (∀ l v : String, l ∈ fixedLoaders →
        isdir (base ++ "/" ++ l ++ "/" ++ v) = false →
        (∀ t ∈ planTasks isdir base mods, ¬ (t.loader = l ∧ t.version = v)) ∧
        (∀ completed : List (Task × Bool),
          (∀ p ∈ completed, p.1 ∈ planTasks isdir base mods) →
          lookupA (buildReport completed) (l ++ "/" ++ v) = none)) := by
  intro isdir base mods
  constructor
  · intro t ht
    exact (planTasks_mem_props _ _ _ _ ht).1
  · intro l v hl hdir
    have hnotask : ∀ t ∈ planTasks isdir base mods,
        ¬ (t.loader = l ∧ t.version = v) := by
      intro t ht hlv
      obtain ⟨hd, _, hpath⟩ := planTasks_mem_props _ _ _ _ ht
      rw [hpath, hlv.1, hlv.2] at hd
      rw [hd] at hdir
      cases hdir
    refine ⟨hnotask, ?_⟩
    intro completed hsub
    rw [buildReport, buildReportAux_lookup]
    have hempty : specGroupNames completed (l ++ "/" ++ v) = [] := by
      unfold specGroupNames
      have hfil : (failedOutcomes completed).filter
          (fun p => decide (groupKey p.1 = l ++ "/" ++ v)) = [] := by
        rw [List.filter_eq_nil_iff]
        intro p hp
        simp only [decide_eq_true_eq]
        intro hkey
        have hpc : p ∈ completed := List.mem_of_mem_filter hp
        have hptask := hsub p hpc
        obtain ⟨_, hlmem, _⟩ := planTasks_mem_props _ _ _ _ hptask
        unfold groupKey at hkey
        exact hnotask p.1 hptask (groupKeyStr_inj _ _ _ _ hlmem hl hkey)
      rw [hfil]
      rfl
    rw [hempty]
    rfl

/-- Witness for C4: with only `fabric/1.20.1` on disk, the `forge/1.19.2`
surface of the merged mod produces no task and its key stays out of the
report. -/
theorem c4_planner_targets_exist_witness :
    (∀ t ∈ planTasks (fun p => decide (p = "b/fabric/1.20.1")) "b"
        [{ name := "Sodium",
           loaders := [("fabric", [("1.20.1", "u1")]),
                       ("forge", [("1.19.2", "u2")])] }],
      ¬ (t.loader = "forge" ∧ t.version = "1.19.2")) ∧
    lookupA (buildReport ([] : List (Task × Bool))) ("forge" ++ "/" ++ "1.19.2") =
      none :=
  have h := (c4_planner_targets_exist (fun p => decide (p = "b/fabric/1.20.1")) "b"
    [{ name := "Sodium",
       loaders := [("fabric", [("1.20.1", "u1")]),
                   ("forge", [("1.19.2", "u2")])] }]).2
    "forge" "1.19.2" (by decide) (by decide)
  ⟨h.1, h.2 [] (by simp)⟩

/-! ## Lemmas about the pack.toml version rewrite -/

theorem tryRewriteLine_eq_packVersion (suffix line : String) :
    tryRewriteLine suffix line =
      (packVersionString line).map
        (fun cur => "version = \"" ++ (cur ++ suffix) ++ "\"\n") := by
  unfold tryRewriteLine packVersionString
  by_cases h1 : listStartsWith (stripChars line.data) "version =".data = true
  · rw [if_pos h1, if_pos h1]
    cases hb : breakAtEq line.data with
    | none => rfl
    | some parts =>
      by_cases hq : (listStartsWith (stripChars parts.2) ['\"'] &&
          listEndsWith (stripChars parts.2) ['\"']) = true
      · simp only [hq, if_true, Option.map_some']
      · simp only [Bool.not_eq_true] at hq
        simp only [hq, Bool.false_eq_true, if_false, Option.map_none']
  · rw [if_neg h1, if_neg h1]
    rfl

/-! ## Claim C8: the version rewrite touches exactly the version line -/

/-- C8: when some line of the manifest carries a `version = "<string>"` field,
the rewrite replaces the first such line with `version = "<string>-<suffix>"`,
reports a modification, and leaves every other line untouched
(`List.set` semantics). -/
theorem c8_pack_version_rewrite :
    ∀ (extSuffix : String) (lines : List String) (i : Nat) (cur : String),
      firstVersionIdx lines = some i →
      packVersionString (lines.getD i "") = some cur →
      updatePackToml extSuffix lines =
        (lines.set i ("version = \"" ++ (cur ++ ("-" ++ extSuffix)) ++ "\"\n"),
         true) := by
  intro s lines
  induction lines with
  | nil =>
    intro i cur h
    cases h
  | cons line rest ih =>
    intro i cur hidx hcur
    unfold firstVersionIdx at hidx
    by_cases hl : (packVersionString line).isSome = true
    · rw [if_pos hl] at hidx
      injection hidx with hidx
      rw [← hidx] at hcur ⊢
      have hline : (line :: rest).getD 0 "" = line := rfl
      rw [hline] at hcur
      unfold updatePackToml updateLines
      rw [tryRewriteLine_eq_packVersion, hcur]
      rfl
    · rw [if_neg hl] at hidx
      rw [Bool.not_eq_true] at hl
      have hnone : packVersionString line = none := by
        cases hres : packVersionString line with
        | none => rfl
        | some w =>
          rw [hres] at hl
          cases hl
      cases hrest : firstVersionIdx rest with
      | none =>
        rw [hrest] at hidx
        cases hidx
      | some j =>
        rw [hrest] at hidx
        rw [Option.map_some'] at hidx
        injection hidx with hidx
        rw [← hidx] at hcur ⊢
        have hgd : (line :: rest).getD (j + 1) "" = rest.getD j "" := rfl
        rw [hgd] at hcur
        have hr := ih j cur hrest hcur
        unfold updatePackToml at hr
        unfold updatePackToml updateLines
        rw [tryRewriteLine_eq_packVersion, hnone]
        simp only [Option.map_none']
        rw [hr]
        rfl

/-- Witness for C8 on a concrete two-line manifest. -/
theorem c8_pack_version_rewrite_witness :
    updatePackToml "opti" ["name = \"x\"\n", "  version = \"1.2\"\n"] =
      (["name = \"x\"\n", "version = \"1.2-opti\"\n"], true) :=
  (c8_pack_version_rewrite "opti" ["name = \"x\"\n", "  version = \"1.2\"\n"] 1 "1.2"
    (by decide) (by decide)).trans (by decide)

end Taichi
